import Mathlib

/-!
Shallow embedding of `src/data_processing/preprocess.py` (MusicVAE data
preprocessing pipeline) and verification of its specification.

Modelling conventions:
* Numeric feature values are rationals (`ℚ`): the Python code computes with
  floats, but every constant and every claim value is an exact decimal, so the
  affine arithmetic is modelled exactly.
* A Python function that may raise maps to an `Option`-valued Lean function;
  `none` means "an exception propagates out of this call".
* External collaborators (the `pretty_midi` parser, `os.walk`, pandas
  primitives) are modelled by explicit inputs / environment records whose
  contracts follow the library documentation; each such model carries a doc
  comment saying what it stands for.
* Text lines are Lean `String`s without their trailing newline; Python
  `str.strip` / `str.split` are modelled character-by-character so that all
  definitions evaluate by `decide`.
-/

/-- A `(TrackID, Genre)` row of the genre DataFrame built by `get_genres`. -/
structure LabelRecord where
  trackID : String
  genre : String
deriving DecidableEq, Repr

/-- A `(TrackID, Path)` row of the `all_midi_df` DataFrame built inside
`get_matched_midi`. -/
structure FileRecord where
  trackID : String
  path : String
deriving DecidableEq, Repr

/-- A `(Path, Genre)` row of the matched DataFrame (`TrackID` dropped). -/
structure MatchedRow where
  path : String
  genre : String
deriving DecidableEq, Repr

/-- The dict returned by `process_row`:
`{"Path": .., "Genre": .., "OneHotGenre": .., "Features": ..}`.
`features = none` models Python `None` (extraction failure). -/
structure ProcessedRow where
  path : String
  genre : String
  oneHotGenre : List ℕ
  features : Option (List ℚ)
deriving DecidableEq, Repr

/-- Python `str.strip()` (default whitespace) on the character list of a
string: drop whitespace from both ends. -/
def stripChars (cs : List Char) : List Char :=
  ((cs.dropWhile Char.isWhitespace).reverse.dropWhile Char.isWhitespace).reverse

/-- Python `str.split(sep)` for a one-character separator `sep`, on character
lists: splits at every occurrence of `sep`; the empty string yields `[[]]`,
adjacent separators yield empty fields, exactly as in Python. -/
def splitOnChar (sep : Char) : List Char → List (List Char)
  | [] => [[]]
  | c :: cs =>
    match splitOnChar sep cs with
    | [] => [[]]
    | f :: fs => if c = sep then [] :: f :: fs else (c :: f) :: fs

/-- `line.strip().split("\t")` from `get_genres`, as a list of field strings. -/
def tabFields (line : String) : List String :=
  (splitOnChar (Char.ofNat 9) (stripChars line.data)).map String.mk

/-- `dir_name.split("/")[-1]` from `get_matched_midi`: the last
slash-separated component of a path string. -/
def lastComponent (s : String) : String :=
  String.mk ((splitOnChar (Char.ofNat 47) s.data).reverse.headD [])

/-- `line[0] == "#"` from `get_genres`: the line is a comment line. (Inside
the Python loop a line is never empty, since `readline` keeps the newline;
an empty Lean string corresponds to Python a bare newline, whose first
character is not the hash mark.) -/
def isCommentLine (line : String) : Bool :=
  line.data.headD ' ' = Char.ofNat 35

/-- `get_genres` (src lines 9-35), with the file abstracted as its list of
lines: skips comment lines; on each other line takes
`[x, y, *_] = line.strip().split("\t")` and records `(x, y)`; `none`
models the ValueError raised by the destructuring assignment when a line
has fewer than two tab-separated fields. No deduplication. -/
def get_genres : List String → Option (List LabelRecord)
  | [] => some []
  | line :: rest =>
    if isCommentLine line then get_genres rest
    else
      match tabFields line with
      | x :: y :: _ =>
        match get_genres rest with
        | some recs => some (⟨x, y⟩ :: recs)
        | none => none
      | _ => none

/-- The `os.walk` loop of `get_matched_midi` (src lines 57-64). The walk
itself is an external collaborator, given as the list of
`(dir_name, file_list)` pairs it yields (the first entry `os.walk` yields is
the root directory itself). For each file: `track_id = dir_name.split("/")[-1]`
and `file_path = "/".join([dir_name, file])`. -/
def buildFileIndex (walk : List (String × List String)) : List FileRecord :=
  walk.flatMap fun e =>
    e.2.map fun file => ⟨lastComponent e.1, e.1 ++ "/" ++ file⟩

/-- `get_matched_midi` (src lines 38-68): builds the file index, then
`pd.merge(all_midi_df, genre_df, on="TrackID", how="inner")` and drops the
`TrackID` column. A pandas inner merge pairs every left row with every right
row having an equal key, keeping left order and, per left row, right order. -/
def get_matched_midi (walk : List (String × List String))
    (genre_df : List LabelRecord) : List MatchedRow :=
  (buildFileIndex walk).flatMap fun f =>
    (genre_df.filter fun l => l.trackID == f.trackID).map fun l =>
      ⟨f.path, l.genre⟩

/-- `normalize_features` (src lines 71-90): the fixed affine rescale of the
five raw features. -/
def normalize_features (features : List ℚ) : List ℚ :=
  let tempo := (features.getD 0 0 - 150) / 300
  let num_sig_changes := (features.getD 1 0 - 2) / 10
  let resolution := (features.getD 2 0 - 260) / 400
  let time_sig_1 := (features.getD 3 0 - 3) / 8
  let time_sig_2 := (features.getD 4 0 - 3) / 8
  [tempo, num_sig_changes, resolution, time_sig_1, time_sig_2]

/-- One element of `pretty_midi`'s `time_signature_changes` list. -/
structure TimeSignature where
  numerator : ℚ
  denominator : ℚ
deriving DecidableEq, Repr

/-- The fields of a successfully parsed `pretty_midi.PrettyMIDI` object that
`get_features` reads. -/
structure MidiData where
  resolution : ℚ
  time_signature_changes : List TimeSignature
deriving DecidableEq, Repr

/-- The external MIDI-parsing collaborator, per file path. `parse` models
`pretty_midi.PrettyMIDI(path)` as run under
`warnings.simplefilter("error")`: `Except.error ()` covers both a raised
exception and an emitted warning (escalated to an error).
`estimate_tempo` models the `PrettyMIDI.estimate_tempo` method, which can
itself raise (e.g. on a file with fewer than two notes). -/
structure MidiEnv where
  parse : String → Except Unit MidiData
  estimate_tempo : MidiData → Except Unit ℚ

/-- `get_features` (src lines 93-124): the whole body sits in
`try: ... except: return None`, so any exception (or escalated warning) from
parsing or tempo estimation yields `none`; otherwise the five raw features
are computed and passed to `normalize_features`. -/
def get_features (env : MidiEnv) (path : String) : Option (List ℚ) :=
  match env.parse path with
  | .error _ => none
  | .ok file =>
    match env.estimate_tempo file with
    | .error _ => none
    | .ok tempo =>
      let num_sig_changes : ℚ := file.time_signature_changes.length
      let resolution := file.resolution
      let ts_changes := file.time_signature_changes
      let ts_1 : ℚ := match ts_changes with | [] => 4 | c :: _ => c.numerator
      let ts_2 : ℚ := match ts_changes with | [] => 4 | c :: _ => c.denominator
      some (normalize_features [tempo, num_sig_changes, resolution, ts_1, ts_2])

/-- Helper for `uniqueList`: keeps the elements of the list not already in
`seen`, in order, recording what has been kept. -/
def uniqueAux : List String → List String → List String
  | [], _ => []
  | g :: gs, seen =>
    if g ∈ seen then uniqueAux gs seen else g :: uniqueAux gs (g :: seen)

/-- `matched_df["Genre"].unique()` (src line 193): pandas `Series.unique`
returns the distinct values in order of first appearance. -/
def uniqueList (l : List String) : List String :=
  uniqueAux l []

/-- `genre_list = matched_df["Genre"].unique()` (src line 193) applied to
the matched rows. -/
def genreList (matched : List MatchedRow) : List String :=
  uniqueList (matched.map fun r => r.genre)

/-- `genre_dict = {genre: idx for idx, genre in enumerate(genre_list)}`
(src line 194) together with the lookup `genre_dict[g]` (src line 165):
`none` models the KeyError on a genre absent from the mapping. -/
def genreId (genre_list : List String) (g : String) : Option ℕ :=
  if g ∈ genre_list then some (genre_list.indexOf g) else none

/-- Row `i` of `np.eye(n)`: 1 at position `i`, 0 elsewhere. -/
def eyeRow (n i : ℕ) : List ℕ :=
  (List.range n).map fun j => if j = i then 1 else 0

/-- `one_hot` (src lines 127-143): `np.eye(num_classes)[labels].astype(int)`.
`none` models the IndexError numpy raises when a label is out of range. -/
def one_hot (labels : List ℕ) (num_classes : ℕ) : Option (List (List ℕ)) :=
  if labels.all (fun i => i < num_classes) then
    some (labels.map (eyeRow num_classes))
  else none

/-- `process_row` (src lines 146-172): extracts features (which never
raises), looks the genre up in the mapping (KeyError propagates, modelled by
`none`), one-hot encodes it, and returns the result dict. -/
def process_row (env : MidiEnv) (row : MatchedRow)
    (genre_dict : String → Option ℕ) (num_classes : ℕ) : Option ProcessedRow :=
  let features := get_features env row.path
  match genre_dict row.genre with
  | none => none
  | some genre_id =>
    match one_hot [genre_id] num_classes with
    | none => none
    | some rows => some ⟨row.path, row.genre, rows.headD [], features⟩

/-- The `Parallel(n_jobs=-1)(delayed(process_row)(...) ...)` fan-out
(src lines 198-201): one `process_row` call per matched row, results
collected in row order; an exception in any call propagates (`none`).
Each call depends only on its own row. -/
def processAll (env : MidiEnv) (genre_dict : String → Option ℕ)
    (num_classes : ℕ) : List MatchedRow → Option (List ProcessedRow)
  | [] => some []
  | row :: rest =>
    match process_row env row genre_dict num_classes,
          processAll env genre_dict num_classes rest with
    | some r, some rs => some (r :: rs)
    | _, _ => none

/-- `processed_df.dropna(subset=["Features"])` (src line 207), after
`processed_df = pd.DataFrame(processed_data)`. pandas semantics: on an empty
record list, `pd.DataFrame([])` has no columns at all, so `dropna` with
`subset=["Features"]` raises `KeyError` (modelled by `none`); otherwise the
frame has a `Features` column and the rows whose value is `None` are
dropped. -/
def dropna_features : List ProcessedRow → Option (List ProcessedRow)
  | [] => none
  | rows => some (rows.filter fun r => r.features.isSome)

/-- `save_matching_csv` (src lines 175-210), with the three external inputs
abstracted: the label file as its list of lines, the directory tree as the
`os.walk` listing, and the MIDI parser as `env`. The result is the record
list written by `to_json(orient="records")`; `none` means the run aborts
with an uncaught exception (and writes nothing). -/
def save_matching_csv (env : MidiEnv) (labelLines : List String)
    (walk : List (String × List String)) : Option (List ProcessedRow) :=
  match get_genres labelLines with
  | none => none
  | some genre_df =>
    let matched := get_matched_midi walk genre_df
    let genre_list := genreList matched
    let num_classes := genre_list.length
    match processAll env (genreId genre_list) num_classes matched with
    | none => none
    | some processed => dropna_features processed

/-! ## Verification -/

/-- C1: `normalize_features` is the exact affine rescale with the five fixed
constants, pure and deterministic (it is a function of its input alone), and
the raw features `[120, 0, 480, 4, 4]` normalize to
`[-0.1, -0.2, 0.55, 0.125, 0.125]`. -/
theorem normalize_features_affine :
    (∀ t n r a b : ℚ, normalize_features [t, n, r, a, b] =
      [(t - 150) / 300, (n - 2) / 10, (r - 260) / 400,
        (a - 3) / 8, (b - 3) / 8]) ∧
    normalize_features [120, 0, 480, 4, 4] =
      [-(1 / 10), -(1 / 5), 11 / 20, 1 / 8, 1 / 8] := by
  constructor
  · intro t n r a b; rfl
  · norm_num [normalize_features]

/-- C10: `get_features` is total over paths: for every environment and path
it returns either `none` or a list of exactly 5 numbers, never propagating an
exception; and any failure inside the extraction scope — not only a parse
failure but also a failing tempo estimation on a successfully parsed file —
yields `none`. -/
theorem get_features_total (env : MidiEnv) (path : String) :
    (get_features env path = none ∨
      ∃ l, get_features env path = some l ∧ l.length = 5) ∧
    (env.parse path = Except.error () → get_features env path = none) ∧
    (∀ m, env.parse path = Except.ok m →
      env.estimate_tempo m = Except.error () →
      get_features env path = none) := by
  refine ⟨?_, ?_, ?_⟩
  · cases hp : env.parse path with
    | error e => exact Or.inl (by simp [get_features, hp])
    | ok file =>
      cases ht : env.estimate_tempo file with
      | error e => exact Or.inl (by simp [get_features, hp, ht])
      | ok tempo =>
        refine Or.inr ⟨normalize_features [tempo,
          (file.time_signature_changes.length : ℚ), file.resolution,
          (match file.time_signature_changes with
            | [] => (4 : ℚ) | c :: _ => c.numerator),
          (match file.time_signature_changes with
            | [] => (4 : ℚ) | c :: _ => c.denominator)],
          by simp [get_features, hp, ht], rfl⟩
  · intro hp; simp [get_features, hp]
  · intro m hp ht; simp [get_features, hp, ht]

/-- Witness for C10: a concrete environment where the file parses but tempo
estimation raises; extraction returns `none`. -/
theorem get_features_total_witness :
    (MidiEnv.mk (fun _ => Except.ok ⟨480, []⟩) (fun _ => Except.error ())).parse
        "x.mid" = Except.ok ⟨480, []⟩ ∧
    (MidiEnv.mk (fun _ => Except.ok ⟨480, []⟩)
        (fun _ => Except.error ())).estimate_tempo ⟨480, []⟩ =
      Except.error () ∧
    get_features
      (MidiEnv.mk (fun _ => Except.ok ⟨480, []⟩) (fun _ => Except.error ()))
      "x.mid" = none :=
  ⟨rfl, rfl,
    (get_features_total
      (MidiEnv.mk (fun _ => Except.ok ⟨480, []⟩) (fun _ => Except.error ()))
      "x.mid").2.2 ⟨480, []⟩ rfl rfl⟩

/-- C8: the File Index Builder yields one record per enumerated file
regardless of extension, whose identifier is the last path component of the
containing directory (so files directly in the root get the root directory's
own name, as the two concrete instances show) and whose path is the
directory joined with the file name. -/
theorem buildFileIndex_spec (walk : List (String × List String)) :
    (buildFileIndex walk).length = (walk.map fun e => e.2.length).sum ∧
    (∀ rec : FileRecord, rec ∈ buildFileIndex walk ↔
      ∃ e ∈ walk, ∃ f ∈ e.2,
        rec = ⟨lastComponent e.1, e.1 ++ "/" ++ f⟩) ∧
    lastComponent "lmd_matched" = "lmd_matched" ∧
    lastComponent "data/lmd_matched" = "lmd_matched" := by
  refine ⟨?_, ?_, by decide, by decide⟩
  · simp [buildFileIndex, List.length_flatMap, Function.comp_def]
  · intro rec
    simp only [buildFileIndex, List.mem_flatMap, List.mem_map]
    constructor
    · rintro ⟨e, he, f, hf, rfl⟩
      exact ⟨e, he, f, hf, rfl⟩
    · rintro ⟨e, he, f, hf, rfl⟩
      exact ⟨e, he, f, hf, rfl⟩

/-- C3: the Matcher is the inner join on identifier: its output is exactly
(as a list, hence with one row per matching pair, the full cross product for
duplicated identifiers) the projection of the identifier-matching pairs of
the file index and the label table, and every output row arises from a file
record and a label record sharing a `TrackID`, with the identifier projected
away. -/
theorem get_matched_midi_inner_join (walk : List (String × List String))
    (genre_df : List LabelRecord) :
    get_matched_midi walk genre_df =
      (((buildFileIndex walk ×ˢ genre_df).filter fun p =>
        p.2.trackID == p.1.trackID).map fun p => ⟨p.1.path, p.2.genre⟩) ∧
    ∀ r : MatchedRow, r ∈ get_matched_midi walk genre_df ↔
      ∃ f ∈ buildFileIndex walk, ∃ l ∈ genre_df,
        f.trackID = l.trackID ∧ r = ⟨f.path, l.genre⟩ := by
  constructor
  · unfold get_matched_midi
    induction buildFileIndex walk with
    | nil => simp
    | cons f fs ih =>
      simp only [List.flatMap_cons, List.product_cons, List.filter_append,
        List.map_append, ih, List.filter_map, List.map_map]
      congr 1
  · intro r
    simp only [get_matched_midi, List.mem_flatMap, List.mem_map,
      List.mem_filter, beq_iff_eq]
    constructor
    · rintro ⟨f, hf, l, ⟨hl, hid⟩, rfl⟩
      exact ⟨f, hf, l, hl, hid.symm, rfl⟩
    · rintro ⟨f, hf, l, hl, hid, rfl⟩
      exact ⟨f, hf, l, ⟨hl, hid.symm⟩, rfl⟩

/-- Membership in `uniqueAux`: the kept elements are exactly the input
elements not already seen. -/
theorem mem_uniqueAux : ∀ (l seen : List String) (x : String),
    x ∈ uniqueAux l seen ↔ x ∈ l ∧ x ∉ seen := by
  intro l
  induction l with
  | nil => intro seen x; simp [uniqueAux]
  | cons g gs ih =>
    intro seen x
    by_cases hg : g ∈ seen
    · simp only [uniqueAux, if_pos hg, ih, List.mem_cons]
      constructor
      · rintro ⟨h1, h2⟩
        exact ⟨Or.inr h1, h2⟩
      · rintro ⟨rfl | h1, h2⟩
        · exact absurd hg h2
        · exact ⟨h1, h2⟩
    · simp only [uniqueAux, if_neg hg, ih, List.mem_cons]
      constructor
      · rintro (rfl | ⟨h1, h2⟩)
        · exact ⟨Or.inl rfl, hg⟩
        · exact ⟨Or.inr h1, fun hx => h2 (Or.inr hx)⟩
      · rintro ⟨rfl | h1, h2⟩
        · exact Or.inl rfl
        · by_cases hxg : x = g
          · exact Or.inl hxg
          · exact Or.inr ⟨h1, fun h => h.elim hxg h2⟩

/-- `uniqueAux` never keeps an element twice. -/
theorem nodup_uniqueAux : ∀ (l seen : List String), (uniqueAux l seen).Nodup := by
  intro l
  induction l with
  | nil => intro seen; simp [uniqueAux]
  | cons g gs ih =>
    intro seen
    by_cases hg : g ∈ seen
    · simpa [uniqueAux, hg] using ih seen
    · simp only [uniqueAux, if_neg hg]
      refine List.nodup_cons.mpr ⟨?_, ih _⟩
      intro hmem
      exact ((mem_uniqueAux gs (g :: seen) g).mp hmem).2 (List.mem_cons_self g seen)

/-- `uniqueAux` lists elements in order of their first occurrence in the
input: positions in the output are ordered like first-occurrence positions
in the input. -/
theorem pairwise_uniqueAux : ∀ (l seen : List String),
    List.Pairwise (fun a b => l.indexOf a < l.indexOf b) (uniqueAux l seen) := by
  intro l
  induction l with
  | nil => intro seen; simp [uniqueAux]
  | cons g gs ih =>
    intro seen
    by_cases hg : g ∈ seen
    · simp only [uniqueAux, if_pos hg]
      refine List.Pairwise.imp_of_mem ?_ (ih seen)
      intro a b ha hb hab
      have ha2 := (mem_uniqueAux gs seen a).mp ha
      have hb2 := (mem_uniqueAux gs seen b).mp hb
      have hag : g ≠ a := fun h => ha2.2 (h ▸ hg)
      have hbg : g ≠ b := fun h => hb2.2 (h ▸ hg)
      rw [List.indexOf_cons_ne _ hag, List.indexOf_cons_ne _ hbg]
      exact Nat.succ_lt_succ hab
    · simp only [uniqueAux, if_neg hg]
      refine List.pairwise_cons.mpr ⟨?_, ?_⟩
      · intro b hb
        have hb2 := (mem_uniqueAux gs (g :: seen) b).mp hb
        have hbg : g ≠ b := fun h => hb2.2 (h ▸ List.mem_cons_self g seen)
        rw [List.indexOf_cons_self, List.indexOf_cons_ne _ hbg]
        exact Nat.succ_pos _
      · refine List.Pairwise.imp_of_mem ?_ (ih (g :: seen))
        intro a b ha hb hab
        have ha2 := (mem_uniqueAux gs (g :: seen) a).mp ha
        have hb2 := (mem_uniqueAux gs (g :: seen) b).mp hb
        have hag : g ≠ a := fun h => ha2.2 (h ▸ List.mem_cons_self g seen)
        have hbg : g ≠ b := fun h => hb2.2 (h ▸ List.mem_cons_self g seen)
        rw [List.indexOf_cons_ne _ hag, List.indexOf_cons_ne _ hbg]
        exact Nat.succ_lt_succ hab

/-- Row `i` of the identity matrix has length `n`. -/
theorem eyeRow_length (n i : ℕ) : (eyeRow n i).length = n := by
  simp [eyeRow]

/-- Entry `j` of row `i` of the identity matrix is 1 iff `j = i`. -/
theorem eyeRow_getD (n i j : ℕ) (hj : j < n) :
    (eyeRow n i).getD j 0 = if j = i then 1 else 0 := by
  rw [List.getD_eq_getElem _ _ (by simpa [eyeRow] using hj)]
  simp [eyeRow]

/-- Row `i` of `np.eye n` contains the value 1 exactly once when `i < n`. -/
theorem eyeRow_count_one (n i : ℕ) (hi : i < n) : (eyeRow n i).count 1 = 1 := by
  have h1 : (eyeRow n i).count 1 =
      List.countP (fun j => j == i) (List.range n) := by
    rw [eyeRow, List.count, List.countP_map]
    apply List.countP_congr
    intro j _
    by_cases hj : j = i <;> simp [hj, Function.comp]
  rw [h1, ← List.count]
  exact List.count_eq_one_of_mem (List.nodup_range n) (List.mem_range.mpr hi)

/-- C5: the genre mapping built from the matched rows assigns each distinct
genre a unique index in `[0, num_classes)` in first-occurrence order (a
bijection between the distinct genres and the indices, deterministic since
it is a function of the input order), and for every genre in the mapping the
one-hot encoding is a vector of length `num_classes` with exactly one 1,
located at the mapped index, 0 elsewhere. -/
theorem genre_mapping_one_hot (rows : List MatchedRow) :
    (genreList rows).Nodup ∧
    (∀ g, g ∈ genreList rows ↔ g ∈ rows.map fun r => r.genre) ∧
    List.Pairwise (fun a b =>
      (rows.map fun r => r.genre).indexOf a <
        (rows.map fun r => r.genre).indexOf b) (genreList rows) ∧
    (∀ g ∈ genreList rows, ∃ i,
      genreId (genreList rows) g = some i ∧
      i < (genreList rows).length ∧
      (∀ g2 ∈ genreList rows, genreId (genreList rows) g2 = some i → g2 = g) ∧
      one_hot [i] (genreList rows).length =
        some [eyeRow (genreList rows).length i] ∧
      (eyeRow (genreList rows).length i).length = (genreList rows).length ∧
      (eyeRow (genreList rows).length i).count 1 = 1 ∧
      ∀ j < (genreList rows).length,
        (eyeRow (genreList rows).length i).getD j 0 = if j = i then 1 else 0) ∧
    ∀ i < (genreList rows).length,
      ∃ g ∈ genreList rows, genreId (genreList rows) g = some i := by
  refine ⟨nodup_uniqueAux _ _, ?_, pairwise_uniqueAux _ _, ?_, ?_⟩
  · intro g
    rw [show genreList rows = uniqueAux (rows.map fun r => r.genre) [] from rfl,
      mem_uniqueAux]
    simp
  · intro g hg
    have hlt : (genreList rows).indexOf g < (genreList rows).length :=
      List.indexOf_lt_length.mpr hg
    refine ⟨(genreList rows).indexOf g, by simp [genreId, hg], hlt, ?_, ?_,
      eyeRow_length _ _, eyeRow_count_one _ _ hlt,
      fun j hj => eyeRow_getD _ _ _ hj⟩
    · intro g2 hg2 hid
      simp only [genreId, if_pos hg2, Option.some.injEq] at hid
      exact (List.indexOf_inj hg2 hg).mp hid
    · simp [one_hot, hlt]
  · intro i hi
    have hmem : (genreList rows).get ⟨i, hi⟩ ∈ genreList rows :=
      List.get_mem _ _ _
    refine ⟨(genreList rows).get ⟨i, hi⟩, hmem, ?_⟩
    simp only [genreId, if_pos hmem, Option.some.injEq]
    have := List.indexOf_getElem (nodup_uniqueAux _ _) i hi
    simpa using this

/-- Witness for C5: on three matched rows with genres Rock, Pop, Rock, the
mapping sends Pop to a concrete in-range index whose one-hot row has exactly
one 1. -/
theorem genre_mapping_one_hot_witness :
    ("Pop" ∈ genreList
      ([⟨"p1", "Rock"⟩, ⟨"p2", "Pop"⟩, ⟨"p3", "Rock"⟩] : List MatchedRow)) ∧
    ∃ i, genreId (genreList
        ([⟨"p1", "Rock"⟩, ⟨"p2", "Pop"⟩, ⟨"p3", "Rock"⟩] : List MatchedRow))
        "Pop" = some i ∧
      i < (genreList
        ([⟨"p1", "Rock"⟩, ⟨"p2", "Pop"⟩, ⟨"p3", "Rock"⟩] :
          List MatchedRow)).length ∧
      (eyeRow (genreList
        ([⟨"p1", "Rock"⟩, ⟨"p2", "Pop"⟩, ⟨"p3", "Rock"⟩] :
          List MatchedRow)).length i).count 1 = 1 := by
  refine ⟨by decide, ?_⟩
  obtain ⟨i, h1, h2, _, _, _, h6, _⟩ :=
    (genre_mapping_one_hot
      ([⟨"p1", "Rock"⟩, ⟨"p2", "Pop"⟩, ⟨"p3", "Rock"⟩] :
        List MatchedRow)).2.2.2.1 "Pop" (by decide)
  exact ⟨i, h1, h2, h6⟩

/-- C6: when every non-comment line has at least 2 tab-separated fields, the
Label Loader produces exactly one record per non-comment line, taking the
first field as identifier and the second as genre, ignoring the rest;
comment lines are skipped and duplicates are kept (no deduplication). -/
theorem get_genres_wellformed (lines : List String)
    (h : ∀ line ∈ lines, isCommentLine line = false →
      2 ≤ (tabFields line).length) :
    get_genres lines = some
      ((lines.filter fun l => !(isCommentLine l)).map fun l =>
        ⟨(tabFields l).getD 0 "", (tabFields l).getD 1 ""⟩) := by
  induction lines with
  | nil => simp [get_genres]
  | cons line rest ih =>
    have hrest := ih fun l hl hc => h l (List.mem_cons_of_mem _ hl) hc
    by_cases hc : isCommentLine line
    · simp [get_genres, hc, hrest]
    · have hcf : isCommentLine line = false := by simpa using hc
      have h2 := h line (List.mem_cons_self _ _) hcf
      rcases htf : tabFields line with _ | ⟨x, _ | ⟨y, rest2⟩⟩
      · rw [htf] at h2; simp at h2
      · rw [htf] at h2; simp at h2
      · simp [get_genres, hcf, htf, hrest]

/-- Witness for C6: a file with a comment line, a 3-field line and a
2-field line yields exactly the two records built from first-two fields. -/
theorem get_genres_wellformed_witness :
    (∀ line ∈ ["# genre file", "TRK1\tRock\textra", "TRK1\tRock"],
      isCommentLine line = false → 2 ≤ (tabFields line).length) ∧
    get_genres ["# genre file", "TRK1\tRock\textra", "TRK1\tRock"] =
      some [⟨"TRK1", "Rock"⟩, ⟨"TRK1", "Rock"⟩] := by
  refine ⟨by decide, ?_⟩
  rw [get_genres_wellformed _ (by decide)]
  decide

/-- C7: a non-comment line with fewer than 2 tab-separated fields makes the
Label Loader raise (ValueError from the destructuring assignment), which
propagates: `get_genres` yields no partial label set and the whole
`save_matching_csv` run aborts. -/
theorem get_genres_malformed_aborts (lines : List String) (line : String)
    (hmem : line ∈ lines) (hc : isCommentLine line = false)
    (hlen : (tabFields line).length < 2) :
    get_genres lines = none ∧
    ∀ env walk, save_matching_csv env lines walk = none := by
  have hnone : ∀ ls : List String, line ∈ ls → get_genres ls = none := by
    intro ls
    induction ls with
    | nil => intro hm; simp at hm
    | cons l rest ih =>
      intro hm
      rcases List.mem_cons.mp hm with rfl | hm2
      · rcases htf : tabFields line with _ | ⟨x, _ | ⟨y, r⟩⟩
        · simp [get_genres, hc, htf]
        · simp [get_genres, hc, htf]
        · rw [htf] at hlen
          exact absurd hlen (by simp)
      · have hr := ih hm2
        by_cases hcl : isCommentLine l
        · simp [get_genres, hcl, hr]
        · rcases htf : tabFields l with _ | ⟨x, _ | ⟨y, r⟩⟩
          · simp [get_genres, hcl, htf]
          · simp [get_genres, hcl, htf]
          · simp [get_genres, hcl, htf, hr]
  refine ⟨hnone lines hmem, fun env walk => ?_⟩
  simp [save_matching_csv, hnone lines hmem]

/-- Witness for C7: a tab-less line aborts the loader and the whole run. -/
theorem get_genres_malformed_aborts_witness :
    ("badline" ∈ ["TRK1\tRock", "badline"]) ∧
    isCommentLine "badline" = false ∧
    (tabFields "badline").length < 2 ∧
    get_genres ["TRK1\tRock", "badline"] = none ∧
    save_matching_csv
      (MidiEnv.mk (fun _ => Except.error ()) (fun _ => Except.error ()))
      ["TRK1\tRock", "badline"] [] = none := by
  have h := get_genres_malformed_aborts ["TRK1\tRock", "badline"] "badline"
    (by decide) (by decide) (by decide)
  exact ⟨by decide, by decide, by decide, h.1,
    h.2 (MidiEnv.mk (fun _ => Except.error ()) (fun _ => Except.error ())) []⟩

/-- C9 (implicit): if the inner join is empty, the run does not write an
empty dataset: `pd.DataFrame([])` has no `Features` column, so
`dropna(subset=["Features"])` raises KeyError and `save_matching_csv`
aborts with no output. -/
theorem empty_matched_aborts (env : MidiEnv) (lines : List String)
    (walk : List (String × List String)) (recs : List LabelRecord)
    (hg : get_genres lines = some recs)
    (hm : get_matched_midi walk recs = []) :
    save_matching_csv env lines walk = none := by
  simp [save_matching_csv, hg, hm, processAll, dropna_features]

/-- Witness for C9: one label, one walked file with a non-matching
identifier: the join is empty and the run aborts. -/
theorem empty_matched_aborts_witness :
    get_genres ["TRK1\tRock"] = some [⟨"TRK1", "Rock"⟩] ∧
    get_matched_midi [("root", ["a.mid"])] [⟨"TRK1", "Rock"⟩] = [] ∧
    save_matching_csv
      (MidiEnv.mk (fun _ => Except.error ()) (fun _ => Except.error ()))
      ["TRK1\tRock"] [("root", ["a.mid"])] = none := by
  refine ⟨by decide, by decide, ?_⟩
  exact empty_matched_aborts
    (MidiEnv.mk (fun _ => Except.error ()) (fun _ => Except.error ()))
    ["TRK1\tRock"] [("root", ["a.mid"])] [⟨"TRK1", "Rock"⟩]
    (by decide) (by decide)

/-- A successful `process_row` result carries the path and genre of its own
input row, its features are exactly `get_features` of that row's path, and
its one-hot vector is the identity-matrix row at the mapped index of that
row's genre. -/
theorem process_row_fields {env : MidiEnv} {row : MatchedRow}
    {gd : String → Option ℕ} {n : ℕ} {r : ProcessedRow}
    (h : process_row env row gd n = some r) :
    r.path = row.path ∧ r.genre = row.genre ∧
    r.features = get_features env row.path ∧
    ∃ gid, gd row.genre = some gid ∧ gid < n ∧
      r.oneHotGenre = eyeRow n gid := by
  simp only [process_row] at h
  split at h
  · exact absurd h (by simp)
  next gid hgd =>
    split at h
    · exact absurd h (by simp)
    next rows2 hoh =>
      simp only [one_hot] at hoh
      split at hoh
      next hall =>
        simp only [Option.some.injEq] at hoh
        subst hoh
        cases h
        refine ⟨rfl, rfl, rfl, gid, hgd, ?_, rfl⟩
        simpa using hall
      · exact absurd hoh (by simp)

/-- `process_row` touches the environment only through
`get_features` at its own row's path. -/
theorem process_row_agree {env env2 : MidiEnv} {row : MatchedRow}
    {gd : String → Option ℕ} {n : ℕ}
    (h : get_features env row.path = get_features env2 row.path) :
    process_row env row gd n = process_row env2 row gd n := by
  simp only [process_row, h]

/-- `get_features` depends on the environment only through the parse result
at the given path and the tempo estimator. -/
theorem get_features_agree {env env2 : MidiEnv} {path : String}
    (hp : env.parse path = env2.parse path)
    (ht : env.estimate_tempo = env2.estimate_tempo) :
    get_features env path = get_features env2 path := by
  simp only [get_features, hp, ht]

/-- Every element of a successful `processAll` result is the `process_row`
output of some input row. -/
theorem processAll_mem {env : MidiEnv} {gd : String → Option ℕ} {n : ℕ} :
    ∀ {rows : List MatchedRow} {processed : List ProcessedRow}
      {r : ProcessedRow},
    processAll env gd n rows = some processed → r ∈ processed →
    ∃ row ∈ rows, process_row env row gd n = some r := by
  intro rows
  induction rows with
  | nil =>
    intro processed r h hr
    simp only [processAll, Option.some.injEq] at h
    subst h; simp at hr
  | cons row rest ih =>
    intro processed r h hr
    simp only [processAll] at h
    cases hpr : process_row env row gd n with
    | none => rw [hpr] at h; simp at h
    | some r0 =>
      cases hpa : processAll env gd n rest with
      | none => rw [hpr, hpa] at h; simp at h
      | some rs =>
        rw [hpr, hpa] at h
        simp only [Option.some.injEq] at h
        subst h
        rcases List.mem_cons.mp hr with rfl | hr2
        · exact ⟨row, List.mem_cons_self _ _, hpr⟩
        · obtain ⟨row2, hrow2, hpr2⟩ := ih hpa hr2
          exact ⟨row2, List.mem_cons_of_mem _ hrow2, hpr2⟩

/-- Conversely, a successful `processAll` contains a `process_row` output
for every input row. -/
theorem processAll_forall {env : MidiEnv} {gd : String → Option ℕ} {n : ℕ} :
    ∀ {rows : List MatchedRow} {processed : List ProcessedRow},
    processAll env gd n rows = some processed →
    ∀ row ∈ rows, ∃ r ∈ processed, process_row env row gd n = some r := by
  intro rows
  induction rows with
  | nil => intro processed h row hrow; simp at hrow
  | cons row0 rest ih =>
    intro processed h row hrow
    simp only [processAll] at h
    cases hpr : process_row env row0 gd n with
    | none => rw [hpr] at h; simp at h
    | some r0 =>
      cases hpa : processAll env gd n rest with
      | none => rw [hpr, hpa] at h; simp at h
      | some rs =>
        rw [hpr, hpa] at h
        simp only [Option.some.injEq] at h
        subst h
        rcases List.mem_cons.mp hrow with rfl | hrow2
        · exact ⟨r0, List.mem_cons_self _ _, hpr⟩
        · obtain ⟨r, hr, hpr2⟩ := ih hpa row hrow2
          exact ⟨r, List.mem_cons_of_mem _ hr, hpr2⟩

/-- `dropna` on the `Features` column succeeds exactly on a nonempty record
list and keeps the rows with present features. -/
theorem dropna_eq_some {rows out : List ProcessedRow} :
    dropna_features rows = some out ↔
    rows ≠ [] ∧ out = rows.filter fun r => r.features.isSome := by
  cases rows with
  | nil => simp [dropna_features]
  | cons a l =>
    simp only [dropna_features, Option.some.injEq]
    constructor
    · intro h; exact ⟨by simp, h.symm⟩
    · intro h; exact h.2.symm

/-- Anatomy of a successful `save_matching_csv` run: labels parsed, all rows
processed, the processed list nonempty, and the output is its
present-features filtering. -/
theorem save_eq_some {env : MidiEnv} {lines : List String}
    {walk : List (String × List String)} {out : List ProcessedRow}
    (h : save_matching_csv env lines walk = some out) :
    ∃ recs, get_genres lines = some recs ∧
      ∃ processed,
        processAll env (genreId (genreList (get_matched_midi walk recs)))
          (genreList (get_matched_midi walk recs)).length
          (get_matched_midi walk recs) = some processed ∧
        processed ≠ [] ∧
        out = processed.filter fun r => r.features.isSome := by
  simp only [save_matching_csv] at h
  split at h
  · exact absurd h (by simp)
  next recs hg =>
    split at h
    · exact absurd h (by simp)
    next processed hpa =>
      obtain ⟨hne, hout⟩ := dropna_eq_some.mp h
      exact ⟨recs, hg, processed, hpa, hne, hout⟩

/-- Every record of a successful run has present features and belongs to a
matched row whose path, genre and extracted features it carries. -/
theorem save_mem {env : MidiEnv} {lines : List String}
    {walk : List (String × List String)} {out : List ProcessedRow}
    {rec : ProcessedRow}
    (h : save_matching_csv env lines walk = some out) (hrec : rec ∈ out) :
    rec.features.isSome = true ∧
    ∃ recs, get_genres lines = some recs ∧
      ∃ row ∈ get_matched_midi walk recs,
        rec.path = row.path ∧ rec.genre = row.genre ∧
        rec.features = get_features env row.path := by
  obtain ⟨recs, hg, processed, hpa, hne, hout⟩ := save_eq_some h
  subst hout
  have hmem := List.mem_filter.mp hrec
  obtain ⟨row, hrow, hpr⟩ := processAll_mem hpa hmem.1
  obtain ⟨h1, h2, h3, -⟩ := process_row_fields hpr
  exact ⟨hmem.2, recs, hg, row, hrow, h1, h2, h3⟩

/-- C2: if parsing the MIDI file at path `p` raises or warns (warnings are
escalated to errors inside the extraction scope), `get_features` returns the
failure marker `none` instead of propagating; no record with that path
appears in any successful final dataset; and rows with other paths are
unaffected: their `process_row` result is the same in any environment
agreeing outside `p`. -/
theorem get_features_parse_error_isolated
    (env env2 : MidiEnv) (p : String)
    (hp : env.parse p = Except.error ())
    (hagree : ∀ q, q ≠ p → env.parse q = env2.parse q)
    (htempo : env.estimate_tempo = env2.estimate_tempo) :
    get_features env p = none ∧
    (∀ lines walk out, save_matching_csv env lines walk = some out →
      ∀ rec ∈ out, rec.path ≠ p) ∧
    (∀ row : MatchedRow, row.path ≠ p → ∀ gd n,
      process_row env row gd n = process_row env2 row gd n) := by
  have hnone : get_features env p = none := by simp [get_features, hp]
  refine ⟨hnone, ?_, ?_⟩
  · intro lines walk out hsave rec hrec hpath
    obtain ⟨hsome, recs, hg, row, hrow, h1, h2, h3⟩ := save_mem hsave hrec
    have hrp : row.path = p := h1.symm.trans hpath
    rw [h3, hrp, hnone] at hsome
    simp at hsome
  · intro row hpath gd n
    exact process_row_agree (get_features_agree (hagree row.path hpath) htempo)

/-- Witness for C2: a concrete pair of environments differing only in that
the first fails to parse `bad.mid`. -/
theorem get_features_parse_error_isolated_witness :
    (MidiEnv.mk
      (fun q => if q = "bad.mid" then Except.error () else Except.ok ⟨480, []⟩)
      (fun _ => Except.ok 120)).parse "bad.mid" = Except.error () ∧
    (∀ q, q ≠ "bad.mid" →
      (MidiEnv.mk
        (fun q => if q = "bad.mid" then Except.error ()
          else Except.ok ⟨480, []⟩)
        (fun _ => Except.ok 120)).parse q =
      (MidiEnv.mk (fun _ => Except.ok ⟨480, []⟩)
        (fun _ => Except.ok 120)).parse q) ∧
    get_features
      (MidiEnv.mk
        (fun q => if q = "bad.mid" then Except.error ()
          else Except.ok ⟨480, []⟩)
        (fun _ => Except.ok 120)) "bad.mid" = none ∧
    (∀ row : MatchedRow, row.path ≠ "bad.mid" → ∀ gd n,
      process_row
        (MidiEnv.mk
          (fun q => if q = "bad.mid" then Except.error ()
            else Except.ok ⟨480, []⟩)
          (fun _ => Except.ok 120)) row gd n =
      process_row
        (MidiEnv.mk (fun _ => Except.ok ⟨480, []⟩)
          (fun _ => Except.ok 120)) row gd n) := by
  have h1 : (MidiEnv.mk
      (fun q => if q = "bad.mid" then Except.error () else Except.ok ⟨480, []⟩)
      (fun _ => Except.ok 120)).parse "bad.mid" = Except.error () := by
    simp
  have h2 : ∀ q, q ≠ "bad.mid" →
      (MidiEnv.mk
        (fun q => if q = "bad.mid" then Except.error ()
          else Except.ok ⟨480, []⟩)
        (fun _ => Except.ok 120)).parse q =
      (MidiEnv.mk (fun _ => Except.ok ⟨480, []⟩)
        (fun _ => Except.ok 120)).parse q := by
    intro q hq
    simp [hq]
  have h := get_features_parse_error_isolated
    (MidiEnv.mk
      (fun q => if q = "bad.mid" then Except.error () else Except.ok ⟨480, []⟩)
      (fun _ => Except.ok 120))
    (MidiEnv.mk (fun _ => Except.ok ⟨480, []⟩) (fun _ => Except.ok 120))
    "bad.mid" h1 h2 rfl
  exact ⟨h1, h2, h.1, h.2.2⟩

/-- C4: the Dataset Assembler keeps exactly the processed rows with present
features: every surviving record has present features and carries the four
fields of a matched input row — path, genre, extracted features, and the
one-hot vector of that same row's genre under the run's mapping; every
matched row with successful extraction yields such a record; and when the
single matched row's file is corrupted the run completes with an empty
dataset. -/
theorem save_keeps_exactly_present :
    (∀ (env : MidiEnv) (lines : List String)
      (walk : List (String × List String)) recs out,
      get_genres lines = some recs →
      save_matching_csv env lines walk = some out →
      (∀ rec ∈ out, rec.features.isSome = true) ∧
      (∀ rec ∈ out, ∃ row ∈ get_matched_midi walk recs,
        rec.path = row.path ∧ rec.genre = row.genre ∧
        rec.features = get_features env row.path ∧
        ∃ gid, genreId (genreList (get_matched_midi walk recs)) row.genre =
            some gid ∧
          gid < (genreList (get_matched_midi walk recs)).length ∧
          rec.oneHotGenre =
            eyeRow (genreList (get_matched_midi walk recs)).length gid) ∧
      (∀ row ∈ get_matched_midi walk recs,
        (get_features env row.path).isSome = true →
        ∃ rec ∈ out, rec.path = row.path ∧ rec.genre = row.genre ∧
          rec.features = get_features env row.path ∧
          ∃ gid, genreId (genreList (get_matched_midi walk recs)) row.genre =
              some gid ∧
            gid < (genreList (get_matched_midi walk recs)).length ∧
            rec.oneHotGenre =
              eyeRow (genreList (get_matched_midi walk recs)).length gid)) ∧
    (∀ (env : MidiEnv) (lines : List String)
      (walk : List (String × List String)) recs row,
      get_genres lines = some recs →
      get_matched_midi walk recs = [row] →
      env.parse row.path = Except.error () →
      save_matching_csv env lines walk = some []) := by
  constructor
  · intro env lines walk recs out hg hsave
    obtain ⟨recs2, hg2, processed, hpa, hne, hout⟩ := save_eq_some hsave
    rw [hg] at hg2
    obtain rfl := Option.some.inj hg2
    subst hout
    refine ⟨fun rec hrec => (List.mem_filter.mp hrec).2, ?_, ?_⟩
    · intro rec hrec
      obtain ⟨row, hrow, hpr⟩ := processAll_mem hpa (List.mem_filter.mp hrec).1
      obtain ⟨h1, h2, h3, h4⟩ := process_row_fields hpr
      exact ⟨row, hrow, h1, h2, h3, h4⟩
    · intro row hrow hsome
      obtain ⟨r, hr, hpr⟩ := processAll_forall hpa row hrow
      obtain ⟨h1, h2, h3, h4⟩ := process_row_fields hpr
      refine ⟨r, List.mem_filter.mpr ⟨hr, ?_⟩, h1, h2, h3, h4⟩
      rw [h3]
      exact hsome
  · intro env lines walk recs row hg hm hp
    simp only [save_matching_csv, hg, hm]
    simp [genreList, uniqueList, uniqueAux, processAll, process_row, genreId,
      one_hot, eyeRow, get_features, hp, dropna_features]

/-- Witness for C4: one label, one matching file that fails to parse; the
run completes and the dataset is empty. -/
theorem save_keeps_exactly_present_witness :
    get_genres ["TRK1\tRock"] = some [⟨"TRK1", "Rock"⟩] ∧
    get_matched_midi [("root/TRK1", ["song.mid"])] [⟨"TRK1", "Rock"⟩] =
      [⟨"root/TRK1/song.mid", "Rock"⟩] ∧
    save_matching_csv
      (MidiEnv.mk (fun _ => Except.error ()) (fun _ => Except.error ()))
      ["TRK1\tRock"] [("root/TRK1", ["song.mid"])] = some [] := by
  refine ⟨by decide, by decide, ?_⟩
  exact save_keeps_exactly_present.2
    (MidiEnv.mk (fun _ => Except.error ()) (fun _ => Except.error ()))
    ["TRK1\tRock"] [("root/TRK1", ["song.mid"])] [⟨"TRK1", "Rock"⟩]
    ⟨"root/TRK1/song.mid", "Rock"⟩ (by decide) (by decide) rfl
